import Mathlib

/-!
A verification development for the CRA scraper's core components: the
multi-window rate limiter (_rate_limiter.py), the content validator
(_data_validator.py), the text chunker (_vectorizer.py) and the per-page
orchestration pipeline (_cra_crawler.py). Strings are modelled as
`List Char`, wall-clock timestamps as rationals, and the external
collaborators (embedding model, vector store, page fetcher, library
regex/URL machinery at its interface) as explicit oracle inputs.
-/

namespace CRA

namespace RateLimiter

/-- Configuration of CRARateLimiter, fixed at construction. -/
structure Config where
  maxPerMinute : Nat
  maxPerHour : Nat
  maxPerDay : Nat
  requestDelay : ℚ

/-- The limiter's state: three timestamp windows plus the time of the last
recorded request (0.0 when none yet, as in the source). -/
structure State where
  minute : List ℚ
  hour : List ℚ
  day : List ℚ
  lastRequestTime : ℚ

def initState : State := ⟨[], [], [], 0⟩

/-- CRARateLimiter._cleanup_old_requests: keep a timestamp t of each window
exactly when t is strictly above the window's cutoff. -/
def cleanupOldRequests (now : ℚ) (s : State) : State :=
  { s with
    minute := s.minute.filter (fun t => now - 60 < t),
    hour := s.hour.filter (fun t => now - 3600 < t),
    day := s.day.filter (fun t => now - 86400 < t) }

/-- Python's min over a nonempty list (0 is a junk value for the empty list,
which the source never reaches with positive configured ceilings). -/
def pyMin : List ℚ → ℚ
  | [] => 0
  | x :: xs => xs.foldl min x

/-- CRARateLimiter._wait_if_rate_limited: the single sleep the call performs,
if any. Each window is tried in order minute, hour, day; the first one at
capacity whose computed wait is positive sleeps once and returns. The source
does not re-prune, re-check or loop after the sleep. -/
def waitIfRateLimited (cfg : Config) (now : ℚ) (s : State) : Option ℚ :=
  if cfg.maxPerMinute ≤ s.minute.length ∧ 0 < 60 - (now - pyMin s.minute) + 1 then
    some (60 - (now - pyMin s.minute) + 1)
  else if cfg.maxPerHour ≤ s.hour.length ∧ 0 < 3600 - (now - pyMin s.hour) + 1 then
    some (3600 - (now - pyMin s.hour) + 1)
  else if cfg.maxPerDay ≤ s.day.length ∧ 0 < 86400 - (now - pyMin s.day) + 1 then
    some (86400 - (now - pyMin s.day) + 1)
  else none

/-- The timestamp acquire records: time.time() is re-sampled (now2) only when
the minimum-delay branch slept; otherwise the entry time now stands. -/
def recordedTime (cfg : Config) (now now2 : ℚ) (s : State) : ℚ :=
  if 0 < s.lastRequestTime ∧ now - s.lastRequestTime < cfg.requestDelay then now2 else now

/-- CRARateLimiter.acquire as a state transformer: prune once at entry time,
sleep as needed (sleeps leave the windows untouched), then append one
timestamp to all three windows and set lastRequestTime. now is the entry
time, now2 the re-sampled clock after a minimum-delay sleep. -/
def acquire (cfg : Config) (now now2 : ℚ) (s : State) : State :=
  let s1 := cleanupOldRequests now s
  let r := recordedTime cfg now now2 s1
  { minute := s1.minute ++ [r], hour := s1.hour ++ [r], day := s1.day ++ [r],
    lastRequestTime := r }

/-- CRARateLimiter.get_stats: prune at the current time and report the three
pruned window counts (the pruning mutation is the returned state). -/
def getStats (now : ℚ) (s : State) : State × (Nat × Nat × Nat) :=
  let s1 := cleanupOldRequests now s
  (s1, (s1.minute.length, s1.hour.length, s1.day.length))

/-- One externally visible operation on the limiter. -/
inductive Op where
  | acquire (now now2 : ℚ)
  | getStats (now : ℚ)

/-- The state reached by one operation. -/
def step (cfg : Config) (s : State) : Op → State
  | .acquire now now2 => RateLimiter.acquire cfg now now2 s
  | .getStats now => (RateLimiter.getStats now s).1

/-- The state reached by a sequence of operations from the fresh limiter. -/
def run (cfg : Config) (ops : List Op) : State :=
  ops.foldl (step cfg) initState

end RateLimiter

namespace Validator

/-- The ASCII whitespace Python's str.split and regex \s agree on; the
scraped inputs are ASCII text. -/
def isPySpace (c : Char) : Bool :=
  c = ' ' ∨ c = '\t' ∨ c = '\n' ∨ c = '\x0d' ∨ c = '\x0b' ∨ c = '\x0c'

/-- Helper for str.split(): accumulate the current word (reversed) while
scanning; whitespace runs close a word, empties are dropped. -/
def pySplitAux : List Char → List Char → List (List Char)
  | [], cur => if cur.isEmpty then [] else [cur.reverse]
  | c :: rest, cur =>
    if isPySpace c then
      if cur.isEmpty then pySplitAux rest [] else cur.reverse :: pySplitAux rest []
    else pySplitAux rest (c :: cur)

/-- Python str.split() with no argument: split on whitespace runs, no empty
pieces. -/
def pySplitWS (l : List Char) : List (List Char) :=
  pySplitAux l []

/-- Python ' '.join. -/
def joinSpace : List (List Char) → List Char
  | [] => []
  | [x] => x
  | x :: y :: xs => x ++ ' ' :: joinSpace (y :: xs)

/-- The whitespace normalization of CRADataSchema.clean_data:
' '.join(text.split()). -/
def collapseWS (l : List Char) : List Char :=
  joinSpace (pySplitWS l)

/-- Python str.lower on the ASCII range. -/
def lowerStr (l : List Char) : List Char :=
  l.map Char.toLower

/-- The 'general' keyword bucket of CRADataValidator._tax_keywords. -/
def kwGeneral : List (List Char) :=
  ["tax", "revenue", "cra", "income", "deduction", "credit"].map String.toList

/-- The 'forms' keyword bucket. -/
def kwForms : List (List Char) :=
  ["form", "t1", "t2", "t3", "t4", "t5"].map String.toList

/-- The 'business' keyword bucket. -/
def kwBusiness : List (List Char) :=
  ["business", "self-employed", "corporation", "gst", "hst"].map String.toList

/-- The 'personal' keyword bucket. -/
def kwPersonal : List (List Char) :=
  ["personal", "individual", "rrsp", "tfsa", "pension"].map String.toList

/-- All buckets combined, in the dict's insertion order, as
is_relevant_content flattens them. -/
def allKeywords : List (List Char) :=
  kwGeneral ++ kwForms ++ kwBusiness ++ kwPersonal

/-- pat is an initial segment of l. -/
def startsSeg : List Char → List Char → Bool
  | [], _ => true
  | _ :: _, [] => false
  | p :: ps, c :: cs => p = c && startsSeg ps cs

/-- Python's substring operator: pat occurs contiguously in l. -/
def containsSeg (pat : List Char) : List Char → Bool
  | [] => pat.isEmpty
  | c :: cs => startsSeg pat (c :: cs) || containsSeg pat cs

/-- pat is a final segment of l. -/
def endsWithSeg (pat l : List Char) : Bool :=
  startsSeg pat.reverse l.reverse

/-- CRADataValidator.is_relevant_content: a loose substring test of every
keyword against the lowercased title and content. -/
def isRelevantContent (title content : List Char) : Bool :=
  allKeywords.any fun kw =>
    containsSeg kw (lowerStr title) || containsSeg kw (lowerStr content)

/-- A regex word character \w on the ASCII range. -/
def isWordChar (c : Char) : Bool :=
  c.isAlphanum || c = '_'

/-- Whether an optional character (none at the text's edge) is a word
character; the edges count as non-word for \b. -/
def optWord : Option Char → Bool
  | none => false
  | some c => isWordChar c

/-- A whole-word occurrence of kw starting at the current position: the text
starts with kw and a \b transition holds at both ends (prev is the character
just before the position). -/
def wwAt (kw : List Char) (prev : Option Char) (text : List Char) : Bool :=
  startsSeg kw text &&
    (optWord prev != optWord text.head?) &&
    (optWord kw.getLast? != optWord (text.drop kw.length).head?)

/-- re.search for \b kw \b: scan every position. -/
def wwSearch (kw : List Char) (prev : Option Char) : List Char → Bool
  | [] => wwAt kw prev []
  | c :: rest => wwAt kw prev (c :: rest) || wwSearch kw (some c) rest

/-- A whole-word match of kw anywhere in text, as
re.search(rf'\b{re.escape(keyword)}\b', text). -/
def wholeWord (kw text : List Char) : Bool :=
  wwSearch kw none text

/-- CRADataValidator.determine_page_type: whole-word match of the buckets in
order forms, business, personal over the lowercased '{title} {content}',
defaulting to 'general'. -/
def determinePageType (title content : List Char) : List Char :=
  let combined := lowerStr title ++ ' ' :: lowerStr content
  if kwForms.any (fun k => wholeWord k combined) then "forms".toList
  else if kwBusiness.any (fun k => wholeWord k combined) then "business".toList
  else if kwPersonal.any (fun k => wholeWord k combined) then "personal".toList
  else "general".toList

/-- A match of the year pattern \b(20[2-3][0-9])\b at the current position,
returned as its numeric value (4-digit strings compare the same way
numerically and lexicographically). -/
def yearAt (prev : Option Char) (text : List Char) : Option Nat :=
  match text with
  | '2' :: '0' :: d1 :: d2 :: rest =>
    if (d1 = '2' ∨ d1 = '3') ∧ d2.isDigit ∧ optWord prev = false ∧
        optWord rest.head? = false then
      some (2000 + 10 * (d1.toNat - 48) + (d2.toNat - 48))
    else none
  | _ => none

/-- All matches of the year pattern, left to right (word boundaries keep the
matches disjoint, so a position scan equals re.findall). -/
def taxYearsFrom (prev : Option Char) : List Char → List Nat
  | [] => []
  | c :: rest =>
    (match yearAt prev (c :: rest) with
     | some y => [y]
     | none => []) ++ taxYearsFrom (some c) rest

/-- CRADataValidator.extract_tax_year: the maximum matched year, or none. -/
def extractTaxYear (content : List Char) : Option Nat :=
  match taxYearsFrom none content with
  | [] => none
  | y :: ys => some (ys.foldl max y)

/-- A character equal to t or T (the form patterns run under re.IGNORECASE). -/
def isT (c : Char) : Bool :=
  c.toLower = 't'

/-- A digit 1 to 5. -/
def is15 (c : Char) : Bool :=
  '1' ≤ c ∧ c ≤ '5'

/-- Whether the character after a candidate match is outside \w (or the text
ends), closing the trailing \b. -/
def nonWordNext (l : List Char) : Bool :=
  optWord l.head? = false

/-- The pattern \bT[1-5][A-Z]?\b at the current position, with the greedy
optional letter and its backtracking made explicit. -/
def t1At (prev : Option Char) (text : List Char) : Option (List Char) :=
  match text with
  | t :: d :: rest =>
    if isT t ∧ is15 d ∧ optWord prev = false then
      match rest with
      | [] => some [t, d]
      | c :: rest2 =>
        if c.isAlpha ∧ nonWordNext rest2 then some [t, d, c]
        else if ¬isWordChar c then some [t, d]
        else none
    else none
  | _ => none

/-- The pattern \bT[1-5]\d{3}\b at the current position. -/
def t4At (prev : Option Char) (text : List Char) : Option (List Char) :=
  match text with
  | t :: d :: a :: b :: c :: rest =>
    if isT t ∧ is15 d ∧ a.isDigit ∧ b.isDigit ∧ c.isDigit ∧
        optWord prev = false ∧ nonWordNext rest then
      some [t, d, a, b, c]
    else none
  | _ => none

/-- The pattern \b P0 P1 \d+\b at the current position for a two-letter head
such as RC or NR: the greedy digit run must end at a non-word character. -/
def twoLetterNumAt (p0 p1 : Char) (prev : Option Char) (text : List Char) :
    Option (List Char) :=
  match text with
  | a :: b :: rest =>
    if a.toLower = p0 ∧ b.toLower = p1 ∧ optWord prev = false then
      let ds := rest.takeWhile fun c => c.isDigit
      if ¬ds.isEmpty ∧ nonWordNext (rest.drop ds.length) then some (a :: b :: ds)
      else none
    else none
  | _ => none

/-- The leftmost match of a positional matcher, as re.findall's first
element. -/
def scanFirst (f : Option Char → List Char → Option (List Char))
    (prev : Option Char) : List Char → Option (List Char)
  | [] => f prev []
  | c :: rest =>
    match f prev (c :: rest) with
    | some m => some m
    | none => scanFirst f (some c) rest

/-- Python str.upper on the ASCII range. -/
def upperStr (l : List Char) : List Char :=
  l.map Char.toUpper

/-- CRADataValidator.extract_form_number: try the four patterns in their
declared order; the first pattern with a match wins and its first match is
upper-cased. -/
def extractFormNumber (content : List Char) : Option (List Char) :=
  match scanFirst t1At none content with
  | some m => some (upperStr m)
  | none =>
    match scanFirst t4At none content with
    | some m => some (upperStr m)
    | none =>
      match scanFirst (twoLetterNumAt 'r' 'c') none content with
      | some m => some (upperStr m)
      | none =>
        match scanFirst (twoLetterNumAt 'n' 'r') none content with
        | some m => some (upperStr m)
        | none => none

/-- The characters after the first "://" of a URL, none when absent; this
models urllib.parse.urlparse for the scheme://host/path shapes the scraper
sees ('invalid-url' yields no netloc). -/
def afterScheme : List Char → Option (List Char)
  | ':' :: '/' :: '/' :: rest => some rest
  | _ :: rest => afterScheme rest
  | [] => none

/-- The netloc: everything up to the first path, query or fragment
delimiter. -/
def takeNetloc (l : List Char) : List Char :=
  l.takeWhile fun c => ¬(c = '/' ∨ c = '?' ∨ c = '#')

/-- urlparse(url).netloc of the model. -/
def netlocOf (u : List Char) : List Char :=
  match afterScheme u with
  | some rest => takeNetloc rest
  | none => []

/-- CRADataValidator.validate_url: the lowercased netloc must end with one of
the allowed domain suffixes. -/
def validateUrl (allowed : List (List Char)) (u : List Char) : Bool :=
  allowed.any fun d => endsWithSeg d (lowerStr (netlocOf u))

/-- Modelled from the spec: the well-formedness check of marshmallow's
fields.Url (an external library validator, specified only as "URL not
well-formed"): a known scheme followed by a nonempty host. -/
def urlWellFormed (u : List Char) : Bool :=
  (startsSeg "http://".toList (lowerStr u) ∨ startsSeg "https://".toList (lowerStr u) ∨
    startsSeg "ftp://".toList (lowerStr u) ∨ startsSeg "ftps://".toList (lowerStr u)) ∧
  ¬(netlocOf u).isEmpty

/-- The raw record handed to validate_data: the three string fields may be
absent, and extractedAtPresent abstracts a parseable required extracted_at. -/
structure RawData where
  url : Option (List Char)
  title : Option (List Char)
  content : Option (List Char)
  extractedAtPresent : Bool

/-- The record CRADataSchema.load yields: fields checked, then whitespace
collapsed by the post_load hook. -/
structure LoadedData where
  url : List Char
  title : List Char
  content : List Char

/-- CRADataSchema.load: required fields present, the URL well-formed, the
declared length bounds checked on the raw strings (field validation runs
before the post_load hook), then title and content collapsed. -/
def schemaLoad (d : RawData) : Option LoadedData :=
  match d.url, d.title, d.content with
  | some u, some t, some c =>
    if d.extractedAtPresent ∧ urlWellFormed u ∧
        1 ≤ t.length ∧ t.length ≤ 500 ∧ 50 ≤ c.length ∧ c.length ≤ 10000 then
      some { url := u, title := collapseWS t, content := collapseWS c }
    else none
  | _, _, _ => none

/-- The enriched record successful validation returns. -/
structure ValidatedData where
  url : List Char
  title : List Char
  content : List Char
  pageType : List Char
  taxYear : Option Nat
  formNumber : Option (List Char)

/-- CRADataValidator.validate_data: schema load, then the domain check, then
the relevance check; on success the record is enriched with tax_year,
form_number and page_type. none stands for a raised ValidationError. -/
def validateData (allowed : List (List Char)) (d : RawData) : Option ValidatedData :=
  match schemaLoad d with
  | none => none
  | some v =>
    if ¬validateUrl allowed v.url then none
    else if ¬isRelevantContent v.title v.content then none
    else
      some { url := v.url, title := v.title, content := v.content,
             pageType := determinePageType v.title v.content,
             taxYear := extractTaxYear v.content,
             formNumber := extractFormNumber v.content }

end Validator

namespace Vectorizer

/-- The chunking configuration of CRAVectorizer. -/
structure Config where
  chunkSize : Nat
  overlapSize : Nat
  maxChunks : Nat

/-- Python str.strip(): drop whitespace from both ends. -/
def pyStrip (l : List Char) : List Char :=
  ((l.dropWhile Validator.isPySpace).reverse.dropWhile Validator.isPySpace).reverse

/-- A sentence-ending character of the boundary-refinement pattern. -/
def isSentPunct (c : Char) : Bool :=
  c = '.' ∨ c = '!' ∨ c = '?'

/-- Helper scanning for matches of [.!?]\s+: i is the absolute offset of the
head, best the end of the last match seen so far. Word-free punctuation and
whitespace keep the matches disjoint, so every punct-then-space position
starts a finditer match whose end is the end of the greedy whitespace run. -/
def lastSentEndAux : List Char → Nat → Option Nat → Option Nat
  | [], _, best => best
  | a :: rest, i, best =>
    match rest.head? with
    | none => best
    | some b =>
      if isSentPunct a ∧ Validator.isPySpace b then
        lastSentEndAux rest (i + 1)
          (some (i + 2 + (rest.tail.takeWhile Validator.isPySpace).length))
      else lastSentEndAux rest (i + 1) best

/-- The end offset of the last match of [.!?]\s+ in s
(sentence_endings[-1]), none when the pattern never matches. -/
def lastSentEnd (s : List Char) : Option Nat :=
  lastSentEndAux s 0 none

/-- The cut point for the segment starting at start: the naive fixed-size
cut, refined to the last sentence ending in the final 200 characters when one
exists and the refined segment is no shorter than overlapSize. On the final
segment (the naive cut reaches the end) no refinement happens. -/
def chunkEnd (cfg : Config) (text : List Char) (start : Nat) : Nat :=
  let end0 := start + cfg.chunkSize
  if end0 < text.length then
    let searchStart := max (start + cfg.chunkSize - 200) start
    let seg := (text.drop searchStart).take (end0 - searchStart)
    let endB :=
      match lastSentEnd seg with
      | some e => searchStart + e
      | none => end0
    if endB - start < cfg.overlapSize then end0 else endB
  else end0

/-- The loop body of _split_text_into_chunks, with explicit fuel: the source
loop always terminates when overlapSize < chunkSize (every pass either
appends a chunk, capped by maxChunks, or advances start), and the fuel
given by splitTextIntoChunks covers every such pass. Nat subtractions agree
with the source's int arithmetic on the reachable values; the progress-guard
comparison is kept in added form to avoid truncation. -/
def chunkLoop (cfg : Config) (text : List Char) :
    Nat → Nat → List (List Char) → List (List Char)
  | 0, _, acc => acc
  | fuel + 1, start, acc =>
    if start < text.length ∧ acc.length < cfg.maxChunks then
      let endA := chunkEnd cfg text start
      let chunk := pyStrip ((text.drop start).take (endA - start))
      let acc2 := if chunk.isEmpty then acc else acc ++ [chunk]
      if text.length ≤ endA then acc2
      else
        let start1 := endA - cfg.overlapSize
        let start2 :=
          if 1 < acc2.length ∧ start1 + cfg.chunkSize ≤ endA + cfg.overlapSize then
            endA - cfg.overlapSize / 2
          else start1
        chunkLoop cfg text fuel start2 acc2
    else acc

/-- CRAVectorizer._split_text_into_chunks: texts within chunkSize pass
through whole; longer texts run the chunking loop from the start. -/
def splitTextIntoChunks (cfg : Config) (text : List Char) : List (List Char) :=
  if text.length ≤ cfg.chunkSize then [text]
  else chunkLoop cfg text (text.length + cfg.maxChunks + 1) 0 []

end Vectorizer

namespace Crawler

/-- The run statistics CRACrawler accumulates. -/
structure Stats where
  pagesCrawled : Nat
  pagesProcessed : Nat
  pagesStored : Nat
  chunksCreated : Nat
  validationErrors : Nat
  processingErrors : Nat

/-- Which storage call the page took. -/
inductive StorePath where
  | batch
  | single

/-- CRACrawler._handle_page on one page: extraction, embedding and storage
are external, so their outcomes are oracle inputs (extracted is the page
record or none, embedOk whether the batched embedding call succeeds, storeOk
whether the store call succeeds); validation and chunking run the embedded
code. An exception after validation lands in the outer handler and counts a
processing error; an empty chunk list makes the single-store access
vectorized_chunks[0] raise before any store call. -/
def handlePage (allowed : List (List Char)) (vcfg : Vectorizer.Config)
    (s : Stats) (extracted : Option Validator.RawData) (embedOk storeOk : Bool) :
    Stats × Option StorePath :=
  let s1 := { s with pagesCrawled := s.pagesCrawled + 1 }
  match extracted with
  | none => (s1, none)
  | some d =>
    match Validator.validateData allowed d with
    | none => ({ s1 with validationErrors := s1.validationErrors + 1 }, none)
    | some v =>
      let s2 := { s1 with pagesProcessed := s1.pagesProcessed + 1 }
      if embedOk then
        let chunks := Vectorizer.splitTextIntoChunks vcfg v.content
        if 1 < chunks.length then
          if storeOk then
            ({ s2 with pagesStored := s2.pagesStored + chunks.length,
                       chunksCreated := s2.chunksCreated + chunks.length },
             some StorePath.batch)
          else ({ s2 with processingErrors := s2.processingErrors + 1 },
                some StorePath.batch)
        else
          match chunks with
          | [] => ({ s2 with processingErrors := s2.processingErrors + 1 }, none)
          | _ :: _ =>
            if storeOk then
              ({ s2 with pagesStored := s2.pagesStored + chunks.length,
                         chunksCreated := s2.chunksCreated + chunks.length },
               some StorePath.single)
            else ({ s2 with processingErrors := s2.processingErrors + 1 },
                  some StorePath.single)
      else ({ s2 with processingErrors := s2.processingErrors + 1 }, none)

end Crawler

/-! Helper lemmas shared across the claims. -/

/-- Stripping trailing whitespace through reversal recomposes the list. -/
theorem strip_right_decomp (p : Char → Bool) (m : List Char) :
    (m.reverse.dropWhile p).reverse ++ (m.reverse.takeWhile p).reverse = m := by
  rw [← List.reverse_append, List.takeWhile_append_dropWhile, List.reverse_reverse]

/-- pyStrip returns a contiguous segment of its input. -/
theorem pyStrip_decomp (l : List Char) :
    l.takeWhile Validator.isPySpace ++ Vectorizer.pyStrip l ++
      ((l.dropWhile Validator.isPySpace).reverse.takeWhile Validator.isPySpace).reverse = l := by
  unfold Vectorizer.pyStrip
  rw [List.append_assoc, strip_right_decomp, List.takeWhile_append_dropWhile]

/-- pyStrip never lengthens its input. -/
theorem pyStrip_length_le (l : List Char) :
    (Vectorizer.pyStrip l).length ≤ l.length := by
  have h := congrArg List.length (pyStrip_decomp l)
  simp only [List.length_append] at h
  omega

/-- The end offset lastSentEndAux reports stays within the scanned suffix. -/
theorem lastSentEndAux_le (l : List Char) :
    ∀ i best, (∀ e, best = some e → e ≤ i + l.length) →
      ∀ e, Vectorizer.lastSentEndAux l i best = some e → e ≤ i + l.length := by
  induction l with
  | nil =>
    intro i best hb e he
    exact hb e he
  | cons a rest ih =>
    intro i best hb e he
    cases rest with
    | nil =>
      simp only [Vectorizer.lastSentEndAux, List.head?_nil] at he
      have := hb e he
      omega
    | cons b rs =>
      simp only [Vectorizer.lastSentEndAux, List.head?_cons, List.tail_cons] at he
      have hlen : (a :: b :: rs).length = (b :: rs).length + 1 := by simp
      by_cases hc : Vectorizer.isSentPunct a ∧ Validator.isPySpace b
      · rw [if_pos hc] at he
        have hres := ih (i + 1)
          (some (i + 2 + (rs.takeWhile Validator.isPySpace).length)) ?_ e he
        · omega
        · intro e' he'
          cases he'
          have h1 : (rs.takeWhile Validator.isPySpace).length ≤ rs.length :=
            (rs.takeWhile_sublist _).length_le
          simp only [List.length_cons]
          omega
      · rw [if_neg hc] at he
        have hres := ih (i + 1) best ?_ e he
        · omega
        · intro e' he'
          have := hb e' he'
          omega

/-- The last sentence ending lies within the scanned segment. -/
theorem lastSentEnd_le (s : List Char) (e : Nat)
    (h : Vectorizer.lastSentEnd s = some e) : e ≤ s.length := by
  have := lastSentEndAux_le s 0 none (by intro e' he'; cases he') e h
  simpa using this

/-- The cut point never exceeds the naive fixed-size cut. -/
theorem chunkEnd_le (cfg : Vectorizer.Config) (text : List Char) (start : Nat) :
    Vectorizer.chunkEnd cfg text start ≤ start + cfg.chunkSize := by
  simp only [Vectorizer.chunkEnd]
  split
  · generalize hss : max (start + cfg.chunkSize - 200) start = ss
    have hs1 : start ≤ ss := hss ▸ le_max_right _ _
    have hs2 : ss ≤ start + cfg.chunkSize := hss ▸ max_le (by omega) (by omega)
    clear hss
    cases hse : Vectorizer.lastSentEnd ((text.drop ss).take (start + cfg.chunkSize - ss)) with
    | none => simp
    | some e =>
      have he := lastSentEnd_le _ e hse
      have hlen : ((text.drop ss).take (start + cfg.chunkSize - ss)).length ≤
          start + cfg.chunkSize - ss := by
        rw [List.length_take]
        exact min_le_left _ _
      have key : ss + e ≤ start + cfg.chunkSize :=
        calc ss + e ≤ ss + (start + cfg.chunkSize - ss) :=
              Nat.add_le_add_left (le_trans he hlen) ss
          _ = start + cfg.chunkSize := Nat.add_sub_cancel' hs2
      dsimp only
      split
      · exact Nat.le_refl _
      · exact key
  · exact Nat.le_refl _

/-- The invariant of the chunking loop: the accumulated chunks stay within
the cap and every chunk is a nonempty contiguous segment of the text of
length at most chunkSize. -/
theorem chunkLoop_invariant (cfg : Vectorizer.Config) (text : List Char) :
    ∀ fuel start acc, acc.length ≤ cfg.maxChunks →
      (∀ c ∈ acc, c ≠ [] ∧ c.length ≤ cfg.chunkSize ∧ ∃ u v, u ++ c ++ v = text) →
      (Vectorizer.chunkLoop cfg text fuel start acc).length ≤ cfg.maxChunks ∧
        ∀ c ∈ Vectorizer.chunkLoop cfg text fuel start acc,
          c ≠ [] ∧ c.length ≤ cfg.chunkSize ∧ ∃ u v, u ++ c ++ v = text := by
  intro fuel
  induction fuel with
  | zero =>
    intro start acc hlen hacc
    exact ⟨hlen, hacc⟩
  | succ fuel ih =>
    intro start acc hlen hacc
    rw [Vectorizer.chunkLoop]
    split
    · rename_i hguard
      set endA := Vectorizer.chunkEnd cfg text start with hEA
      set chunk := Vectorizer.pyStrip ((text.drop start).take (endA - start)) with hchunk
      have hP : chunk.isEmpty = false →
          chunk ≠ [] ∧ chunk.length ≤ cfg.chunkSize ∧ ∃ u v, u ++ chunk ++ v = text := by
        intro hne
        refine ⟨by simpa using hne, ?_, ?_⟩
        · have h1 : chunk.length ≤ ((text.drop start).take (endA - start)).length :=
            pyStrip_length_le _
          have h2 : ((text.drop start).take (endA - start)).length ≤ endA - start := by
            simp [List.length_take]
          have h3 : endA ≤ start + cfg.chunkSize := chunkEnd_le cfg text start
          omega
        · obtain ⟨a, b, hab⟩ :
              ∃ u v, u ++ chunk ++ v = (text.drop start).take (endA - start) :=
            ⟨_, _, pyStrip_decomp _⟩
          refine ⟨text.take start ++ a, b ++ (text.drop start).drop (endA - start), ?_⟩
          have hsplit : (text.drop start).take (endA - start) ++
              (text.drop start).drop (endA - start) = text.drop start :=
            List.take_append_drop _ _
          calc (text.take start ++ a) ++ chunk ++ (b ++ (text.drop start).drop (endA - start))
              = text.take start ++ ((a ++ chunk ++ b) ++ (text.drop start).drop (endA - start)) := by
                simp [List.append_assoc]
            _ = text.take start ++ ((text.drop start).take (endA - start) ++
                  (text.drop start).drop (endA - start)) := by rw [hab]
            _ = text.take start ++ text.drop start := by rw [hsplit]
            _ = text := List.take_append_drop _ _
      by_cases hemp : chunk.isEmpty
      · simp only [hemp, if_true]
        split
        · exact ⟨hlen, hacc⟩
        · exact ih _ acc hlen hacc
      · have hne : chunk.isEmpty = false := by simpa using hemp
        simp only [hne, if_false, Bool.false_eq_true]
        have hlen2 : (acc ++ [chunk]).length ≤ cfg.maxChunks := by
          simp only [List.length_append, List.length_cons, List.length_nil]
          omega
        have hacc2 : ∀ c ∈ acc ++ [chunk],
            c ≠ [] ∧ c.length ≤ cfg.chunkSize ∧ ∃ u v, u ++ c ++ v = text := by
          intro c hc
          rcases List.mem_append.mp hc with hc | hc
          · exact hacc c hc
          · rcases List.mem_singleton.mp hc with rfl
            exact hP hne
        split
        · exact ⟨hlen2, hacc2⟩
        · exact ih _ _ hlen2 hacc2
    · exact ⟨hlen, hacc⟩

/-! The claims. -/

/-- C9: for every text with len(text) ≤ chunkSize, split returns exactly one
chunk, equal to the input text unchanged. -/
theorem c9_short_text_single_chunk (cfg : Vectorizer.Config) (text : List Char)
    (h : text.length ≤ cfg.chunkSize) :
    Vectorizer.splitTextIntoChunks cfg text = [text] := by
  unfold Vectorizer.splitTextIntoChunks
  rw [if_pos h]

/-- Witness for C9 at a concrete short text and the source's default
configuration. -/
theorem c9_short_text_single_chunk_witness :
    Vectorizer.splitTextIntoChunks ⟨3000, 500, 10⟩ "This is a short document.".toList =
      ["This is a short document.".toList] :=
  c9_short_text_single_chunk ⟨3000, 500, 10⟩ _ (by decide)

/-- C3 counterexample: with chunkSize 2, overlapSize 1, maxChunks 1 (all
within the claim's constraints) and the 4-character text "abcd", split
returns a single chunk, not more than one. -/
theorem c3_counterexample :
    0 < (Vectorizer.Config.mk 2 1 1).chunkSize ∧
    (Vectorizer.Config.mk 2 1 1).overlapSize < (Vectorizer.Config.mk 2 1 1).chunkSize ∧
    1 ≤ (Vectorizer.Config.mk 2 1 1).maxChunks ∧
    (Vectorizer.Config.mk 2 1 1).chunkSize < "abcd".toList.length ∧
    ¬1 < (Vectorizer.splitTextIntoChunks (Vectorizer.Config.mk 2 1 1) "abcd".toList).length := by
  decide

/-- C3 (amended): for every text longer than chunkSize, split returns at
most maxChunks chunks, each a nonempty contiguous segment of the text of
length at most chunkSize; excess text is silently dropped (the function is
total). More than one chunk is not guaranteed (for example when
maxChunks = 1). -/
theorem c3_long_text_chunks (cfg : Vectorizer.Config) (text : List Char)
    (h : cfg.chunkSize < text.length) :
    (Vectorizer.splitTextIntoChunks cfg text).length ≤ cfg.maxChunks ∧
      ∀ c ∈ Vectorizer.splitTextIntoChunks cfg text,
        c ≠ [] ∧ c.length ≤ cfg.chunkSize ∧ ∃ u v, u ++ c ++ v = text := by
  unfold Vectorizer.splitTextIntoChunks
  rw [if_neg (by omega)]
  exact chunkLoop_invariant cfg text _ 0 [] (by simp) (by simp)

/-- Witness for C3 (amended) at a concrete long text. -/
theorem c3_long_text_chunks_witness :
    (Vectorizer.splitTextIntoChunks ⟨3, 1, 5⟩ "abcdefgh".toList).length ≤ 5 ∧
      ∀ c ∈ Vectorizer.splitTextIntoChunks ⟨3, 1, 5⟩ "abcdefgh".toList,
        c ≠ [] ∧ c.length ≤ 3 ∧ ∃ u v, u ++ c ++ v = "abcdefgh".toList :=
  c3_long_text_chunks ⟨3, 1, 5⟩ "abcdefgh".toList (by decide)

/-- C6: determine_page_type is total and deterministic: every (title,
content) pair yields exactly one of forms, business, personal, general;
whole-word hits are tested bucket by bucket in the priority order forms,
business, personal, the earlier bucket winning, with general as the default;
applying the function twice to the same inputs gives the same result. -/
theorem c6_page_type_total (title content : List Char) :
    (Validator.determinePageType title content = "forms".toList ∨
     Validator.determinePageType title content = "business".toList ∨
     Validator.determinePageType title content = "personal".toList ∨
     Validator.determinePageType title content = "general".toList) ∧
    (Validator.kwForms.any
        (fun k => Validator.wholeWord k
          (Validator.lowerStr title ++ ' ' :: Validator.lowerStr content)) = true →
      Validator.determinePageType title content = "forms".toList) ∧
    (Validator.kwForms.any
        (fun k => Validator.wholeWord k
          (Validator.lowerStr title ++ ' ' :: Validator.lowerStr content)) = false →
      Validator.kwBusiness.any
        (fun k => Validator.wholeWord k
          (Validator.lowerStr title ++ ' ' :: Validator.lowerStr content)) = true →
      Validator.determinePageType title content = "business".toList) ∧
    (Validator.kwForms.any
        (fun k => Validator.wholeWord k
          (Validator.lowerStr title ++ ' ' :: Validator.lowerStr content)) = false →
      Validator.kwBusiness.any
        (fun k => Validator.wholeWord k
          (Validator.lowerStr title ++ ' ' :: Validator.lowerStr content)) = false →
      Validator.kwPersonal.any
        (fun k => Validator.wholeWord k
          (Validator.lowerStr title ++ ' ' :: Validator.lowerStr content)) = true →
      Validator.determinePageType title content = "personal".toList) ∧
    (Validator.kwForms.any
        (fun k => Validator.wholeWord k
          (Validator.lowerStr title ++ ' ' :: Validator.lowerStr content)) = false →
      Validator.kwBusiness.any
        (fun k => Validator.wholeWord k
          (Validator.lowerStr title ++ ' ' :: Validator.lowerStr content)) = false →
      Validator.kwPersonal.any
        (fun k => Validator.wholeWord k
          (Validator.lowerStr title ++ ' ' :: Validator.lowerStr content)) = false →
      Validator.determinePageType title content = "general".toList) ∧
    Validator.determinePageType title content = Validator.determinePageType title content := by
  refine ⟨?_, ?_, ?_, ?_, ?_, rfl⟩
  · simp only [Validator.determinePageType]
    split_ifs <;> simp
  · intro h1
    simp [Validator.determinePageType, h1]
  · intro h1 h2
    simp [Validator.determinePageType, h1, h2]
  · intro h1 h2 h3
    simp [Validator.determinePageType, h1, h2, h3]
  · intro h1 h2 h3
    simp [Validator.determinePageType, h1, h2, h3]

/-- C7: extract_form_number tries the patterns T[1-5][A-Z]?, T[1-5]\d{3},
RC\d+, NR\d+ in that fixed order, case-insensitively with word boundaries,
and returns the first match of the first pattern that matches anything,
upper-cased, or none when no pattern matches; in particular it returns RC123
on "Form RC123 for GST" and T1 on "Complete form T1". -/
theorem c7_extract_form_number :
    Validator.extractFormNumber "Form RC123 for GST".toList = some "RC123".toList ∧
    Validator.extractFormNumber "Complete form T1".toList = some "T1".toList ∧
    (∀ content m, Validator.scanFirst Validator.t1At none content = some m →
      Validator.extractFormNumber content = some (Validator.upperStr m)) ∧
    (∀ content m, Validator.scanFirst Validator.t1At none content = none →
      Validator.scanFirst Validator.t4At none content = some m →
      Validator.extractFormNumber content = some (Validator.upperStr m)) ∧
    (∀ content m, Validator.scanFirst Validator.t1At none content = none →
      Validator.scanFirst Validator.t4At none content = none →
      Validator.scanFirst (Validator.twoLetterNumAt 'r' 'c') none content = some m →
      Validator.extractFormNumber content = some (Validator.upperStr m)) ∧
    (∀ content m, Validator.scanFirst Validator.t1At none content = none →
      Validator.scanFirst Validator.t4At none content = none →
      Validator.scanFirst (Validator.twoLetterNumAt 'r' 'c') none content = none →
      Validator.scanFirst (Validator.twoLetterNumAt 'n' 'r') none content = some m →
      Validator.extractFormNumber content = some (Validator.upperStr m)) ∧
    (∀ content, Validator.scanFirst Validator.t1At none content = none →
      Validator.scanFirst Validator.t4At none content = none →
      Validator.scanFirst (Validator.twoLetterNumAt 'r' 'c') none content = none →
      Validator.scanFirst (Validator.twoLetterNumAt 'n' 'r') none content = none →
      Validator.extractFormNumber content = none) := by
  refine ⟨by decide, by decide, ?_, ?_, ?_, ?_, ?_⟩
  · intro content m h1
    simp [Validator.extractFormNumber, h1]
  · intro content m h1 h2
    simp [Validator.extractFormNumber, h1, h2]
  · intro content m h1 h2 h3
    simp [Validator.extractFormNumber, h1, h2, h3]
  · intro content m h1 h2 h3 h4
    simp [Validator.extractFormNumber, h1, h2, h3, h4]
  · intro content h1 h2 h3 h4
    simp [Validator.extractFormNumber, h1, h2, h3, h4]

/-- Folding min over a list lands on one of its elements or the seed. -/
theorem foldl_min_mem (x : ℚ) (xs : List ℚ) : xs.foldl min x ∈ x :: xs := by
  induction xs generalizing x with
  | nil => simp
  | cons y ys ih =>
    rw [List.foldl_cons]
    have h := ih (min x y)
    rcases List.mem_cons.mp h with h1 | h1
    · rcases min_choice x y with hm | hm
      · rw [h1, hm]
        exact List.mem_cons_self _ _
      · rw [h1, hm]
        exact List.mem_cons_of_mem _ (List.mem_cons_self _ _)
    · exact List.mem_cons_of_mem _ (List.mem_cons_of_mem _ h1)

/-- Python's min of a nonempty list is one of its elements. -/
theorem pyMin_mem (l : List ℚ) (h : l ≠ []) : RateLimiter.pyMin l ∈ l := by
  cases l with
  | nil => exact absurd rfl h
  | cons x xs => exact foldl_min_mem x xs

/-- When the clock is not re-sampled (no minimum-delay sleep happened or it
ended at the same reading), acquire records the entry time. -/
theorem recordedTime_self (cfg : RateLimiter.Config) (t : ℚ) (s : RateLimiter.State) :
    RateLimiter.recordedTime cfg t t s = t := by
  unfold RateLimiter.recordedTime
  split <;> rfl

/-- The minute window after an acquire at time t: the pruned window plus the
new timestamp. -/
theorem acquire_minute_self (cfg : RateLimiter.Config) (t : ℚ) (s : RateLimiter.State) :
    (RateLimiter.acquire cfg t t s).minute =
      s.minute.filter (fun x => t - 60 < x) ++ [t] := by
  simp [RateLimiter.acquire, RateLimiter.cleanupOldRequests, recordedTime_self]

/-- C8: with maxPerMinute = 5 and five acquire calls recorded within one
minute, the wait the sixth call computes is 60 - (now - oldest) + 1, strictly
positive and at most 61 seconds. -/
theorem c8_sixth_call_wait (cfg : RateLimiter.Config) (t1 t2 t3 t4 t5 t6 : ℚ)
    (hmax : cfg.maxPerMinute = 5)
    (h12 : t1 ≤ t2) (h23 : t2 ≤ t3) (h34 : t3 ≤ t4) (h45 : t4 ≤ t5) (h56 : t5 ≤ t6)
    (hspan : t6 - t1 < 60) (s5 : RateLimiter.State)
    (hs : s5 = RateLimiter.acquire cfg t5 t5 (RateLimiter.acquire cfg t4 t4
      (RateLimiter.acquire cfg t3 t3 (RateLimiter.acquire cfg t2 t2
        (RateLimiter.acquire cfg t1 t1 RateLimiter.initState))))) :
    ∃ w, RateLimiter.waitIfRateLimited cfg t6 (RateLimiter.cleanupOldRequests t6 s5) = some w ∧
      w = 60 - (t6 - t1) + 1 ∧ 0 < w ∧ w ≤ 61 := by
  have h13 : t1 ≤ t3 := h12.trans h23
  have h14 : t1 ≤ t4 := h13.trans h34
  have h15 : t1 ≤ t5 := h14.trans h45
  have h16 : t1 ≤ t6 := h15.trans h56
  have hm1 : (RateLimiter.acquire cfg t1 t1 RateLimiter.initState).minute = [t1] := by
    rw [acquire_minute_self]
    simp [RateLimiter.initState]
  have hm2 : (RateLimiter.acquire cfg t2 t2
      (RateLimiter.acquire cfg t1 t1 RateLimiter.initState)).minute = [t1, t2] := by
    rw [acquire_minute_self, hm1]
    have k1 : t2 - 60 < t1 := by linarith
    simp [k1]
  have hm3 : (RateLimiter.acquire cfg t3 t3 (RateLimiter.acquire cfg t2 t2
      (RateLimiter.acquire cfg t1 t1 RateLimiter.initState))).minute = [t1, t2, t3] := by
    rw [acquire_minute_self, hm2]
    have k1 : t3 - 60 < t1 := by linarith
    have k2 : t3 - 60 < t2 := by linarith
    simp [k1, k2]
  have hm4 : (RateLimiter.acquire cfg t4 t4 (RateLimiter.acquire cfg t3 t3
      (RateLimiter.acquire cfg t2 t2
        (RateLimiter.acquire cfg t1 t1 RateLimiter.initState)))).minute = [t1, t2, t3, t4] := by
    rw [acquire_minute_self, hm3]
    have k1 : t4 - 60 < t1 := by linarith
    have k2 : t4 - 60 < t2 := by linarith
    have k3 : t4 - 60 < t3 := by linarith
    simp [k1, k2, k3]
  have hm5 : s5.minute = [t1, t2, t3, t4, t5] := by
    rw [hs, acquire_minute_self, hm4]
    have k1 : t5 - 60 < t1 := by linarith
    have k2 : t5 - 60 < t2 := by linarith
    have k3 : t5 - 60 < t3 := by linarith
    have k4 : t5 - 60 < t4 := by linarith
    simp [k1, k2, k3, k4]
  have hm6 : (RateLimiter.cleanupOldRequests t6 s5).minute = [t1, t2, t3, t4, t5] := by
    show s5.minute.filter (fun x => t6 - 60 < x) = [t1, t2, t3, t4, t5]
    rw [hm5]
    have k1 : t6 - 60 < t1 := by linarith
    have k2 : t6 - 60 < t2 := by linarith
    have k3 : t6 - 60 < t3 := by linarith
    have k4 : t6 - 60 < t4 := by linarith
    have k5 : t6 - 60 < t5 := by linarith
    simp [k1, k2, k3, k4, k5]
  have hmin : RateLimiter.pyMin (RateLimiter.cleanupOldRequests t6 s5).minute = t1 := by
    rw [hm6]
    simp only [RateLimiter.pyMin, List.foldl_cons, List.foldl_nil]
    rw [min_eq_left h12, min_eq_left h13, min_eq_left h14, min_eq_left h15]
  refine ⟨60 - (t6 - t1) + 1, ?_, rfl, by linarith, by linarith⟩
  unfold RateLimiter.waitIfRateLimited
  rw [if_pos]
  · rw [hmin]
  · constructor
    · rw [hm6, hmax]
      simp
    · rw [hmin]
      linarith

/-- Witness for C8 with all six calls at time 0 and the test configuration. -/
theorem c8_sixth_call_wait_witness :
    ∃ w, RateLimiter.waitIfRateLimited ⟨5, 500, 5000, 2⟩ 0
        (RateLimiter.cleanupOldRequests 0 (RateLimiter.acquire ⟨5, 500, 5000, 2⟩ 0 0
          (RateLimiter.acquire ⟨5, 500, 5000, 2⟩ 0 0 (RateLimiter.acquire ⟨5, 500, 5000, 2⟩ 0 0
            (RateLimiter.acquire ⟨5, 500, 5000, 2⟩ 0 0
              (RateLimiter.acquire ⟨5, 500, 5000, 2⟩ 0 0 RateLimiter.initState)))))) = some w ∧
      w = 60 - ((0 : ℚ) - 0) + 1 ∧ 0 < w ∧ w ≤ 61 :=
  c8_sixth_call_wait ⟨5, 500, 5000, 2⟩ 0 0 0 0 0 0 rfl le_rfl le_rfl le_rfl le_rfl le_rfl
    (by norm_num) _ rfl

/-- C1 counterexample: a concrete acquire pass on which the pruned minute
window is at capacity, yet a request timestamp is appended on that very pass
(the window grows past the ceiling), contradicting "a request timestamp is
appended only on a pass in which no window was at capacity". -/
theorem c1_counterexample :
    (RateLimiter.Config.mk 1 100 1000 2).maxPerMinute ≤
      (RateLimiter.cleanupOldRequests 60 (RateLimiter.State.mk [50] [50] [50] 50)).minute.length ∧
    (RateLimiter.acquire (RateLimiter.Config.mk 1 100 1000 2) 60 60
        (RateLimiter.State.mk [50] [50] [50] 50)).minute.length =
      (RateLimiter.cleanupOldRequests 60 (RateLimiter.State.mk [50] [50] [50] 50)).minute.length
        + 1 := by
  have hclean : (RateLimiter.cleanupOldRequests 60
      (RateLimiter.State.mk [50] [50] [50] 50)).minute = [(50 : ℚ)] := by
    show List.filter (fun t => decide ((60 : ℚ) - 60 < t)) [50] = [50]
    rw [List.filter_cons, if_pos]
    · rfl
    · show decide ((60 : ℚ) - 60 < 50) = true
      rw [decide_eq_true_eq]
      norm_num
  constructor
  · rw [hclean]
    norm_num
  · have hacq : (RateLimiter.acquire (RateLimiter.Config.mk 1 100 1000 2) 60 60
        (RateLimiter.State.mk [50] [50] [50] 50)).minute =
        (RateLimiter.cleanupOldRequests 60 (RateLimiter.State.mk [50] [50] [50] 50)).minute ++
          [RateLimiter.recordedTime (RateLimiter.Config.mk 1 100 1000 2) 60 60
            (RateLimiter.cleanupOldRequests 60 (RateLimiter.State.mk [50] [50] [50] 50))] := rfl
    rw [hacq, List.length_append]
    rfl

/-- C1 (amended): when the pruned minute window is at capacity, acquire
computes the single wait 60 - (now - oldest) + 1 and sleeps it, but does not
re-prune, re-check or loop; the request timestamp is appended to all three
windows on that same pass. -/
theorem c1_no_retry_records_anyway (cfg : RateLimiter.Config) (s : RateLimiter.State)
    (now now2 : ℚ) (hpos : 0 < cfg.maxPerMinute)
    (hcap : cfg.maxPerMinute ≤ (RateLimiter.cleanupOldRequests now s).minute.length) :
    RateLimiter.waitIfRateLimited cfg now (RateLimiter.cleanupOldRequests now s) =
      some (60 - (now - RateLimiter.pyMin (RateLimiter.cleanupOldRequests now s).minute) + 1) ∧
    (RateLimiter.acquire cfg now now2 s).minute =
      (RateLimiter.cleanupOldRequests now s).minute ++
        [RateLimiter.recordedTime cfg now now2 (RateLimiter.cleanupOldRequests now s)] ∧
    (RateLimiter.acquire cfg now now2 s).hour =
      (RateLimiter.cleanupOldRequests now s).hour ++
        [RateLimiter.recordedTime cfg now now2 (RateLimiter.cleanupOldRequests now s)] ∧
    (RateLimiter.acquire cfg now now2 s).day =
      (RateLimiter.cleanupOldRequests now s).day ++
        [RateLimiter.recordedTime cfg now now2 (RateLimiter.cleanupOldRequests now s)] := by
  refine ⟨?_, rfl, rfl, rfl⟩
  have hne : (RateLimiter.cleanupOldRequests now s).minute ≠ [] := by
    intro h
    rw [h] at hcap
    simp at hcap
    omega
  have hmem := pyMin_mem _ hne
  have hgt : now - 60 < RateLimiter.pyMin (RateLimiter.cleanupOldRequests now s).minute := by
    have hf := List.mem_filter.mp hmem
    simpa using hf.2
  unfold RateLimiter.waitIfRateLimited
  rw [if_pos ⟨hcap, by linarith⟩]

/-- Witness for C1 (amended) at a concrete at-capacity state. -/
theorem c1_no_retry_records_anyway_witness :
    RateLimiter.waitIfRateLimited ⟨1, 100, 1000, 2⟩ 60
        (RateLimiter.cleanupOldRequests 60 ⟨[50], [50], [50], 50⟩) =
      some (60 - ((60 : ℚ) -
        RateLimiter.pyMin (RateLimiter.cleanupOldRequests 60 ⟨[50], [50], [50], 50⟩).minute) + 1) ∧
    (RateLimiter.acquire ⟨1, 100, 1000, 2⟩ 60 60 ⟨[50], [50], [50], 50⟩).minute =
      (RateLimiter.cleanupOldRequests 60 ⟨[50], [50], [50], 50⟩).minute ++
        [RateLimiter.recordedTime ⟨1, 100, 1000, 2⟩ 60 60
          (RateLimiter.cleanupOldRequests 60 ⟨[50], [50], [50], 50⟩)] ∧
    (RateLimiter.acquire ⟨1, 100, 1000, 2⟩ 60 60 ⟨[50], [50], [50], 50⟩).hour =
      (RateLimiter.cleanupOldRequests 60 ⟨[50], [50], [50], 50⟩).hour ++
        [RateLimiter.recordedTime ⟨1, 100, 1000, 2⟩ 60 60
          (RateLimiter.cleanupOldRequests 60 ⟨[50], [50], [50], 50⟩)] ∧
    (RateLimiter.acquire ⟨1, 100, 1000, 2⟩ 60 60 ⟨[50], [50], [50], 50⟩).day =
      (RateLimiter.cleanupOldRequests 60 ⟨[50], [50], [50], 50⟩).day ++
        [RateLimiter.recordedTime ⟨1, 100, 1000, 2⟩ 60 60
          (RateLimiter.cleanupOldRequests 60 ⟨[50], [50], [50], 50⟩)] :=
  c1_no_retry_records_anyway ⟨1, 100, 1000, 2⟩ ⟨[50], [50], [50], 50⟩ 60 60
    (by norm_num)
    (by
      have hclean : (RateLimiter.cleanupOldRequests 60
          (RateLimiter.State.mk [50] [50] [50] 50)).minute = [(50 : ℚ)] := by
        show List.filter (fun t => decide ((60 : ℚ) - 60 < t)) [50] = [50]
        rw [List.filter_cons, if_pos]
        · rfl
        · show decide ((60 : ℚ) - 60 < 50) = true
          rw [decide_eq_true_eq]
          norm_num
      rw [show (⟨[50], [50], [50], 50⟩ : RateLimiter.State) =
        RateLimiter.State.mk [50] [50] [50] 50 from rfl, hclean]
      norm_num)

/-- Pruning keeps the minute window a sublist of the hour window and the
hour window a sublist of the day window: the cutoffs are nested. -/
theorem cleanup_nested (now : ℚ) (s : RateLimiter.State)
    (h1 : s.minute.Sublist s.hour) (h2 : s.hour.Sublist s.day) :
    (RateLimiter.cleanupOldRequests now s).minute.Sublist
      (RateLimiter.cleanupOldRequests now s).hour ∧
    (RateLimiter.cleanupOldRequests now s).hour.Sublist
      (RateLimiter.cleanupOldRequests now s).day := by
  constructor
  · refine List.Sublist.trans (List.monotone_filter_right s.minute ?_) (h1.filter _)
    intro a ha
    simp only [decide_eq_true_eq] at ha ⊢
    linarith
  · refine List.Sublist.trans (List.monotone_filter_right s.hour ?_) (h2.filter _)
    intro a ha
    simp only [decide_eq_true_eq] at ha ⊢
    linarith

/-- One step of the limiter keeps the minute window a sublist of the hour
window and the hour window a sublist of the day window: both operations
prune with nested cutoffs, and acquire appends the same timestamp to all
three windows. -/
theorem step_nested (cfg : RateLimiter.Config) (s : RateLimiter.State)
    (h1 : s.minute.Sublist s.hour) (h2 : s.hour.Sublist s.day) (op : RateLimiter.Op) :
    (RateLimiter.step cfg s op).minute.Sublist (RateLimiter.step cfg s op).hour ∧
    (RateLimiter.step cfg s op).hour.Sublist (RateLimiter.step cfg s op).day := by
  cases op with
  | acquire now now2 =>
    exact ⟨(cleanup_nested now s h1 h2).1.append (List.Sublist.refl _),
      (cleanup_nested now s h1 h2).2.append (List.Sublist.refl _)⟩
  | getStats now =>
    exact ⟨(cleanup_nested now s h1 h2).1, (cleanup_nested now s h1 h2).2⟩

/-- The nesting invariant holds of every state a sequence of operations
reaches. -/
theorem run_nested_aux (cfg : RateLimiter.Config) (ops : List RateLimiter.Op) :
    ∀ s : RateLimiter.State, s.minute.Sublist s.hour → s.hour.Sublist s.day →
      (ops.foldl (RateLimiter.step cfg) s).minute.Sublist
        (ops.foldl (RateLimiter.step cfg) s).hour ∧
      (ops.foldl (RateLimiter.step cfg) s).hour.Sublist
        (ops.foldl (RateLimiter.step cfg) s).day := by
  induction ops with
  | nil =>
    intro s h1 h2
    exact ⟨h1, h2⟩
  | cons op rest ih =>
    intro s h1 h2
    have hstep := step_nested cfg s h1 h2 op
    exact ih _ hstep.1 hstep.2

/-- C10: after every sequence of acquire and getStats operations, the pruned
window counts are nested: minute at most hour, hour at most day. -/
theorem c10_window_counts_nested (cfg : RateLimiter.Config) (ops : List RateLimiter.Op) :
    (RateLimiter.run cfg ops).minute.length ≤ (RateLimiter.run cfg ops).hour.length ∧
    (RateLimiter.run cfg ops).hour.length ≤ (RateLimiter.run cfg ops).day.length := by
  have h := run_nested_aux cfg ops RateLimiter.initState
    (List.Sublist.refl _) (List.Sublist.refl _)
  exact ⟨h.1.length_le, h.2.length_le⟩

/-- Unfolding validate_data on a record with all fields present: the schema
check on the raw strings, then the domain check, then the relevance check on
the collapsed strings, then enrichment. -/
theorem validateData_eq (allowed : List (List Char)) (u t c : List Char) (e : Bool) :
    Validator.validateData allowed ⟨some u, some t, some c, e⟩ =
      if e = true ∧ Validator.urlWellFormed u = true ∧ 1 ≤ t.length ∧ t.length ≤ 500 ∧
          50 ≤ c.length ∧ c.length ≤ 10000 then
        if Validator.validateUrl allowed u = true then
          if Validator.isRelevantContent (Validator.collapseWS t)
              (Validator.collapseWS c) = true then
            some { url := u, title := Validator.collapseWS t,
                   content := Validator.collapseWS c,
                   pageType := Validator.determinePageType (Validator.collapseWS t)
                     (Validator.collapseWS c),
                   taxYear := Validator.extractTaxYear (Validator.collapseWS c),
                   formNumber := Validator.extractFormNumber (Validator.collapseWS c) }
          else none
        else none
      else none := by
  by_cases h1 : e = true ∧ Validator.urlWellFormed u = true ∧ 1 ≤ t.length ∧
      t.length ≤ 500 ∧ 50 ≤ c.length ∧ c.length ≤ 10000
  · by_cases h2 : Validator.validateUrl allowed u = true
    · by_cases h3 : Validator.isRelevantContent (Validator.collapseWS t)
          (Validator.collapseWS c) = true
      · simp [Validator.validateData, Validator.schemaLoad, h1, h2, h3]
      · simp [Validator.validateData, Validator.schemaLoad, h1, h2, h3]
    · simp [Validator.validateData, Validator.schemaLoad, h1, h2]
  · simp [Validator.validateData, Validator.schemaLoad, h1]

/-- C2 counterexample: a record whose raw content is exactly 50 characters
but collapses to the 3-character "tax" passes validation, where the claim
says it must be rejected: the length bounds run on the raw string, before
the whitespace collapse. -/
theorem c2_counterexample :
    "tax                                               ".toList.length = 50 ∧
    (Validator.collapseWS
      "tax                                               ".toList).length < 50 ∧
    (Validator.validateData ["canada.ca".toList]
      ⟨some "https://www.canada.ca/en/tax".toList, some "Tax".toList,
       some "tax                                               ".toList, true⟩).isSome =
      true := by
  refine ⟨by decide, by decide, ?_⟩
  decide

/-- C2 (amended): whitespace collapsing happens after the length bounds and
before the keyword-relevance test: a successfully validated record carries
the collapsed title and content, its raw title and content satisfied the
declared bounds, and the relevance test held of the collapsed strings. A
content string whose collapsed form is shorter than 50 characters is
accepted whenever its raw form is within bounds. -/
theorem c2_collapse_after_length_before_keywords (allowed : List (List Char))
    (u t c : List Char) (e : Bool) (r : Validator.ValidatedData)
    (h : Validator.validateData allowed ⟨some u, some t, some c, e⟩ = some r) :
    r.title = Validator.collapseWS t ∧ r.content = Validator.collapseWS c ∧
    1 ≤ t.length ∧ t.length ≤ 500 ∧ 50 ≤ c.length ∧ c.length ≤ 10000 ∧
    Validator.isRelevantContent (Validator.collapseWS t) (Validator.collapseWS c) = true := by
  rw [validateData_eq] at h
  split at h
  · split at h
    · split at h
      · rename_i h1 h2 h3
        injection h with h
        subst h
        exact ⟨rfl, rfl, h1.2.2.1, h1.2.2.2.1, h1.2.2.2.2.1, h1.2.2.2.2.2, h3⟩
      · exact absurd h (by simp)
    · exact absurd h (by simp)
  · exact absurd h (by simp)

/-- Witness for C2 (amended) at a concrete accepted record. -/
theorem c2_collapse_after_length_before_keywords_witness :
    ∃ r, Validator.validateData ["canada.ca".toList]
        ⟨some "https://www.canada.ca/en/tax".toList, some "Tax Guide".toList,
         some "income tax information for residents, well over fifty chars".toList,
         true⟩ = some r ∧
      (r.title = Validator.collapseWS "Tax Guide".toList ∧
       r.content = Validator.collapseWS
         "income tax information for residents, well over fifty chars".toList ∧
       1 ≤ "Tax Guide".toList.length ∧ "Tax Guide".toList.length ≤ 500 ∧
       50 ≤ "income tax information for residents, well over fifty chars".toList.length ∧
       "income tax information for residents, well over fifty chars".toList.length ≤ 10000 ∧
       Validator.isRelevantContent (Validator.collapseWS "Tax Guide".toList)
         (Validator.collapseWS
           "income tax information for residents, well over fifty chars".toList) = true) := by
  have hS : (Validator.validateData ["canada.ca".toList]
      ⟨some "https://www.canada.ca/en/tax".toList, some "Tax Guide".toList,
       some "income tax information for residents, well over fifty chars".toList,
       true⟩).isSome = true := by decide
  obtain ⟨r, hr⟩ := Option.isSome_iff_exists.mp hS
  exact ⟨r, hr, c2_collapse_after_length_before_keywords _ _ _ _ _ r hr⟩

/-- C5: validate_data rejects a record exactly when a structural field is
missing or out of its declared bounds (title 1-500, content 50-10000, URL
not well-formed, extracted_at unusable), the URL's host does not end with an
allowed-domain suffix, or the substring relevance test fails; otherwise it
returns the record enriched with page_type, tax_year and form_number. -/
theorem c5_validate_iff (allowed : List (List Char)) :
    (∀ d : Validator.RawData,
      (d.url = none ∨ d.title = none ∨ d.content = none) →
        Validator.validateData allowed d = none) ∧
    (∀ (u t c : List Char) (e : Bool),
      (Validator.validateData allowed ⟨some u, some t, some c, e⟩ = none ↔
        (e = false ∨ Validator.urlWellFormed u = false ∨
         t.length < 1 ∨ 500 < t.length ∨ c.length < 50 ∨ 10000 < c.length ∨
         Validator.validateUrl allowed u = false ∨
         Validator.isRelevantContent (Validator.collapseWS t)
           (Validator.collapseWS c) = false))) ∧
    (∀ (u t c : List Char) (e : Bool) (r : Validator.ValidatedData),
      Validator.validateData allowed ⟨some u, some t, some c, e⟩ = some r →
        r = { url := u, title := Validator.collapseWS t,
              content := Validator.collapseWS c,
              pageType := Validator.determinePageType (Validator.collapseWS t)
                (Validator.collapseWS c),
              taxYear := Validator.extractTaxYear (Validator.collapseWS c),
              formNumber := Validator.extractFormNumber (Validator.collapseWS c) }) := by
  refine ⟨?_, ?_, ?_⟩
  · intro d hd
    rcases d with ⟨du, dt, dc, de⟩
    cases du <;> cases dt <;> cases dc <;>
      first
      | rfl
      | simp at hd
  · intro u t c e
    rw [validateData_eq]
    by_cases h1 : e = true ∧ Validator.urlWellFormed u = true ∧ 1 ≤ t.length ∧
        t.length ≤ 500 ∧ 50 ≤ c.length ∧ c.length ≤ 10000
    · by_cases h2 : Validator.validateUrl allowed u = true
      · by_cases h3 : Validator.isRelevantContent (Validator.collapseWS t)
            (Validator.collapseWS c) = true
        · simp only [if_pos h1, if_pos h2, if_pos h3]
          obtain ⟨e1, e2, e3, e4, e5, e6⟩ := h1
          constructor
          · intro h
            exact absurd h (by simp)
          · intro h
            rcases h with h | h | h | h | h | h | h | h <;>
              first
              | (rw [e1] at h; cases h)
              | (rw [e2] at h; cases h)
              | (rw [h2] at h; cases h)
              | (rw [h3] at h; cases h)
              | omega
        · simp only [if_pos h1, if_pos h2, if_neg h3]
          simp only [Bool.not_eq_true] at h3
          simp [h3]
      · simp only [if_pos h1, if_neg h2]
        simp only [Bool.not_eq_true] at h2
        simp [h2]
    · simp only [if_neg h1]
      constructor
      · intro _
        by_contra hall
        push_neg at hall
        obtain ⟨a1, a2, a3, a4, a5, a6, a7, a8⟩ := hall
        exact h1 ⟨by simpa using a1, by simpa using a2, by omega, by omega, by omega, by omega⟩
      · intro _
        trivial
  · intro u t c e r h
    rw [validateData_eq] at h
    split at h
    · split at h
      · split at h
        · injection h with h
          exact h.symm
        · exact absurd h (by simp)
      · exact absurd h (by simp)
    · exact absurd h (by simp)

/-- C4: the per-page pipeline of _handle_page: a validation failure counts
one validation error and stops with the other counters unchanged; any
failure after successful validation (embedding failure, store failure, or an
empty chunk list making vectorized_chunks[0] raise) counts one processing
error and leaves the run going with the validation-error and storage
counters unchanged; on full success, pagesProcessed rises by one,
pagesStored and chunksCreated each rise by the chunk count, and the
batch-store path is used exactly when the chunk count exceeds one, the
single-store path otherwise. -/
theorem c4_per_page_pipeline (allowed : List (List Char)) (vcfg : Vectorizer.Config)
    (s : Crawler.Stats) (d : Validator.RawData) (embedOk storeOk : Bool) :
    (Validator.validateData allowed d = none →
      Crawler.handlePage allowed vcfg s (some d) embedOk storeOk =
        ({ s with pagesCrawled := s.pagesCrawled + 1,
                  validationErrors := s.validationErrors + 1 }, none)) ∧
    (∀ v, Validator.validateData allowed d = some v →
      (embedOk = false ∨ storeOk = false ∨
        Vectorizer.splitTextIntoChunks vcfg v.content = []) →
      ((Crawler.handlePage allowed vcfg s (some d) embedOk storeOk).1.processingErrors =
          s.processingErrors + 1 ∧
        (Crawler.handlePage allowed vcfg s (some d) embedOk storeOk).1.validationErrors =
          s.validationErrors ∧
        (Crawler.handlePage allowed vcfg s (some d) embedOk storeOk).1.pagesStored =
          s.pagesStored ∧
        (Crawler.handlePage allowed vcfg s (some d) embedOk storeOk).1.chunksCreated =
          s.chunksCreated)) ∧
    (∀ v, Validator.validateData allowed d = some v → embedOk = true → storeOk = true →
      Vectorizer.splitTextIntoChunks vcfg v.content ≠ [] →
      Crawler.handlePage allowed vcfg s (some d) embedOk storeOk =
        ({ s with pagesCrawled := s.pagesCrawled + 1,
                  pagesProcessed := s.pagesProcessed + 1,
                  pagesStored := s.pagesStored +
                    (Vectorizer.splitTextIntoChunks vcfg v.content).length,
                  chunksCreated := s.chunksCreated +
                    (Vectorizer.splitTextIntoChunks vcfg v.content).length },
         some (if 1 < (Vectorizer.splitTextIntoChunks vcfg v.content).length then
           Crawler.StorePath.batch else Crawler.StorePath.single))) := by
  refine ⟨?_, ?_, ?_⟩
  · intro h
    simp [Crawler.handlePage, h]
  · intro v hv hfail
    rcases hfail with he | hs | hc
    · subst he
      simp [Crawler.handlePage, hv]
    · subst hs
      cases hc2 : Vectorizer.splitTextIntoChunks vcfg v.content with
      | nil =>
        cases embedOk <;> simp [Crawler.handlePage, hv, hc2]
      | cons a as =>
        cases embedOk
        · simp [Crawler.handlePage, hv, hc2]
        · by_cases hlen : 0 < as.length <;>
            simp [Crawler.handlePage, hv, hc2, hlen]
    · cases embedOk <;> cases storeOk <;> simp [Crawler.handlePage, hv, hc]
  · intro v hv he hs hne
    subst he
    subst hs
    cases hc : Vectorizer.splitTextIntoChunks vcfg v.content with
    | nil => exact absurd hc hne
    | cons a as =>
      by_cases hlen : 0 < as.length <;>
        simp [Crawler.handlePage, hv, hc, hlen]

end CRA
